import Mathlib

/-
Verification of the core behaviors of the vscode-cadence extension sources.

The development shallowly embeds:
- the legacy version extraction and semver cleaning used by
  src/extension/src/flow-cli/cli-versions-provider.ts
  (parseFlowCliVersion, cliBinaryFromVersion, the fetch fallback chain,
  the root cache aggregation, and the add/remove registry operations);
- the emulator connectivity monitor and client lifecycle of
  src/extension/src/emulator/server/language-server.ts
  (watchEmulator tick logic, interval constant, startClient lock discipline);
- the reactive value cache (StateCache) modelled from the spec, since its
  implementation file (src/utils/state-cache.ts) is not among the sources.

External collaborators (shell execution, JSON parsing, config resolution,
the language client transport) are modelled as environment parameters whose
outcomes are inputs to the embedded control flow, mirroring how the source
consumes them.
-/

/- ===================== semver model =====================
Model of the parts of the node-semver library used by the source:
semver.clean, semver.parse and SemVer.version (formatting).  The strict
grammar is: optional single leading v, then major.minor.patch where each
numeric component is 0 or digits without a leading zero, then an optional
dash-separated prerelease list of dot-separated identifiers, then an
optional plus-prefixed build list.  parse rejects inputs longer than 256
characters and numeric components above 2^53 - 1, and trims surrounding
whitespace.  The whitespace set here is the ASCII subset of the JS one;
the identifiers are ASCII letters, digits and dash, as in the library. -/

def isSpace (c : Char) : Bool :=
  c == ' ' || c == '\t' || c == '\n' || c == '\r' || c == Char.ofNat 11 || c == Char.ofNat 12

def isIdentChar (c : Char) : Bool :=
  c.isDigit || c.isAlpha || c == '-'

def digitsToNat (l : List Char) : Nat :=
  l.foldl (fun n c => 10 * n + (c.toNat - 48)) 0

def maxSafeInteger : Nat := 9007199254740991

/-- Numeric component of the strict semver grammar: 0, or digits with no
leading zero.  A maximal digit run that is not of this shape makes the
whole match fail, since regex backtracking cannot place a digit where the
following literal dot, dash, plus or end of input is required. -/
def parseNumericIdent (l : List Char) : Option (Nat × List Char) :=
  let ds := l.takeWhile Char.isDigit
  let rest := l.dropWhile Char.isDigit
  if ds.isEmpty then none
  else if ds.head? == some '0' && ds.length != 1 then none
  else some (digitsToNat ds, rest)

/-- Prerelease identifier: a maximal run of [0-9A-Za-z-]; if it is all
digits it must be 0 or have no leading zero. -/
def parsePreIdent (l : List Char) : Option (String × List Char) :=
  let cs := l.takeWhile isIdentChar
  let rest := l.dropWhile isIdentChar
  if cs.isEmpty then none
  else if cs.all Char.isDigit && cs.head? == some '0' && cs.length != 1 then none
  else some (String.mk cs, rest)

/-- Build identifier: any nonempty run of [0-9A-Za-z-]. -/
def parseBuildIdent (l : List Char) : Option (String × List Char) :=
  let cs := l.takeWhile isIdentChar
  let rest := l.dropWhile isIdentChar
  if cs.isEmpty then none else some (String.mk cs, rest)

/-- Dot-separated identifier list.  A dot must be followed by another
identifier or the whole match fails (the tail of the semver regex cannot
consume a dot).  Fuel bounds the recursion; callers pass the input length
plus one, which is ample since every step consumes at least two chars. -/
def parseDotList (pident : List Char → Option (String × List Char)) :
    Nat → List Char → Option (List String × List Char)
  | 0, _ => none
  | fuel + 1, l =>
    match pident l with
    | none => none
    | some (ident, rest) =>
      match rest with
      | '.' :: rest2 =>
        match parseDotList pident fuel rest2 with
        | some (idents, rest3) => some (ident :: idents, rest3)
        | none => none
      | _ => some ([ident], rest)

def expectDot : List Char → Option (List Char)
  | '.' :: r => some r
  | _ => none

def trimChars (l : List Char) : List Char :=
  ((l.dropWhile isSpace).reverse.dropWhile isSpace).reverse

structure SemVer where
  major : Nat
  minor : Nat
  patch : Nat
  prerelease : List String
  build : List String
deriving DecidableEq

def parseSemVerCore (l0 : List Char) : Option SemVer := do
  let l1 := match l0 with
    | 'v' :: r => r
    | _ => l0
  let (major, l2) ← parseNumericIdent l1
  let l3 ← expectDot l2
  let (minor, l4) ← parseNumericIdent l3
  let l5 ← expectDot l4
  let (patch, l6) ← parseNumericIdent l5
  let (pre, l7) ← match l6 with
    | '-' :: r => parseDotList parsePreIdent (r.length + 1) r
    | _ => some (([] : List String), l6)
  let (build, l8) ← match l7 with
    | '+' :: r => parseDotList parseBuildIdent (r.length + 1) r
    | _ => some (([] : List String), l7)
  if l8.isEmpty then
    if major ≤ maxSafeInteger ∧ minor ≤ maxSafeInteger ∧ patch ≤ maxSafeInteger then
      some { major := major, minor := minor, patch := patch, prerelease := pre, build := build }
    else none
  else none

/-- semver.parse: length guard, then trim, then the strict grammar. -/
def semverParse (s : String) : Option SemVer :=
  if s.length > 256 then none
  else parseSemVerCore (trimChars s.data)

/-- The .version field of a parsed SemVer: major.minor.patch plus the
dash-prefixed prerelease list; build metadata is not included. -/
def formatSemVer (v : SemVer) : String :=
  let base := toString v.major ++ "." ++ toString v.minor ++ "." ++ toString v.patch
  match v.prerelease with
  | [] => base
  | ps => base ++ "-" ++ String.intercalate "." ps

/-- The trim plus leading [=v] strip that semver.clean applies before
parsing. -/
def cleanStrip (s : String) : String :=
  String.mk ((trimChars s.data).dropWhile (fun c => c == '=' || c == 'v'))

/-- semver.clean: strip, parse, and return the formatted version. -/
def semverClean (s : String) : Option String :=
  (semverParse (cleanStrip s)).map formatSemVer

/- ===================== legacy version regexp =====================
LEGACY_VERSION_REGEXP in cli-versions-provider.ts is
  Version:\s*v(.*)(?:\s|$)  with the multiline flag.
Matching is leftmost: scan for the first position where the literal
Version: is followed by a maximal whitespace run and then the letter v
(shorter whitespace runs cannot help, since they would leave a whitespace
character where v is required).  The captured group is the greedy dot-star,
which runs to the end of the line; the trailing alternation then always
succeeds, against the line terminator as whitespace or against the end of
input, so the group is exactly the rest of the line.  Dot excludes the
line terminators, here the ASCII ones. -/

def matchVersionAt (l : List Char) : Option (List Char) :=
  if l.take 8 = "Version:".data then
    match (l.drop 8).dropWhile isSpace with
    | 'v' :: rest => some (rest.takeWhile (fun c => !(c == '\n' || c == '\r')))
    | _ => none
  else none

def legacyVersionSearch : List Char → Option (List Char)
  | [] => none
  | c :: rest =>
    match matchVersionAt (c :: rest) with
    | some r => some r
    | none => legacyVersionSearch rest

/-- The first capture group of LEGACY_VERSION_REGEXP, or none. -/
def legacyVersionMatch (s : String) : Option String :=
  (legacyVersionSearch s.data).map String.mk

/-- parseFlowCliVersion from cli-versions-provider.ts: match the legacy
regexp, return none without a match, otherwise semver.clean the group. -/
def parseFlowCliVersion (buffer : String) : Option String :=
  match legacyVersionMatch buffer with
  | none => none
  | some raw => semverClean raw

example : parseFlowCliVersion "Version: v1.2.3\n" = some "1.2.3" := by rfl
example : legacyVersionMatch "Version: vv1.2.3\n" = some "v1.2.3" := by rfl
example : parseFlowCliVersion "Version: vv1.2.3\n" = some "1.2.3" := by rfl
example : parseFlowCliVersion "no version here" = none := by rfl
example : semverClean "garbage" = none := by rfl
example : semverParse "v1.2.3" = some ⟨1, 2, 3, [], []⟩ := by rfl
example : semverParse "1.2.3-alpha.1+b01" = some ⟨1, 2, 3, ["alpha", "1"], ["b01"]⟩ := by rfl
example : semverParse "1.2.3-01" = none := by rfl
example : semverParse "01.2.3" = none := by rfl

/- ===================== CLI versions provider =====================
Model of CliVersionsProvider in cli-versions-provider.ts.  Shell execution
and JSON field extraction are environment inputs: exec maps a command line
to either a thrown error or an output pair, and jsonVersionField maps the
stdout text to either a thrown error (JSON.parse or property access threw)
or the optional string content of the version field (none when the field
is absent or not a string, in which case semver.parse yields null without
throwing). -/

structure CliBinary where
  command : String
  version : SemVer
deriving DecidableEq

def CHECK_FLOW_CLI_CMD (flowCommand : String) : String :=
  flowCommand ++ " version --output=json"

def CHECK_FLOW_CLI_CMD_NO_JSON (flowCommand : String) : String :=
  flowCommand ++ " version"

structure ExecOutput where
  stdout : String
  stderr : String

structure FetchEnv where
  exec : String → Except Unit ExecOutput
  jsonVersionField : String → Except Unit (Option String)

/-- cliBinaryFromVersion: none unless the string is a valid semver. -/
def cliBinaryFromVersion (bin : String) (versionStr : String) : Option CliBinary :=
  (semverParse versionStr).map (fun v => { command := bin, version := v })

/-- Body of the try block of the old (plain text) fetch: run the plain
version command, extract the token from stdout and otherwise from stderr,
and return none when no token or no valid semver results. -/
def fetchBinaryInformationOldBody (env : FetchEnv) (bin : String) :
    Except Unit (Option CliBinary) := do
  let output ← env.exec (CHECK_FLOW_CLI_CMD_NO_JSON bin)
  let versionStr := match parseFlowCliVersion output.stdout with
    | some v => some v
    | none => parseFlowCliVersion output.stderr
  match versionStr with
  | none => pure none
  | some v => pure (cliBinaryFromVersion bin v)

/-- fetchBinaryInformationOld: the body with its catch-all returning null. -/
def fetchBinaryInformationOld (env : FetchEnv) (bin : String) : Option CliBinary :=
  match fetchBinaryInformationOldBody env bin with
  | Except.ok r => r
  | Except.error _ => none

/-- Body of the try block of the structured fetch: run the JSON version
command, read the version field of the parsed output, and convert. -/
def fetchBinaryInformationBody (env : FetchEnv) (bin : String) :
    Except Unit (Option CliBinary) := do
  let buffer ← env.exec (CHECK_FLOW_CLI_CMD bin)
  let versionField ← env.jsonVersionField buffer.stdout
  match versionField with
  | none => pure none
  | some vs => pure (cliBinaryFromVersion bin vs)

/-- fetchBinaryInformation: the structured body, falling back to the old
fetch when the body throws. -/
def fetchBinaryInformation (env : FetchEnv) (bin : String) : Option CliBinary :=
  match fetchBinaryInformationBody env bin with
  | Except.ok r => r
  | Except.error _ => fetchBinaryInformationOld env bin

/- The root cache fetcher of the CliVersionsProvider constructor: await
every per-binary cache value with a catch replacing a rejection by null,
then filter out the nulls.  Leaves are the per-binary cache outcomes. -/

def rootCacheCollect :
    List (String × Except Unit (Option CliBinary)) → Except Unit (List (Option CliBinary))
  | [] => Except.ok []
  | p :: rest => do
    let v : Option CliBinary := match p.2 with
      | Except.error _ => none
      | Except.ok v => v
    let vs ← rootCacheCollect rest
    Except.ok (v :: vs)

def rootCacheFetcher (leaves : List (String × Except Unit (Option CliBinary))) :
    Except Unit (List CliBinary) := do
  let binaries ← rootCacheCollect leaves
  Except.ok (binaries.filterMap id)

/-- Follows the spec words for the aggregate: exactly those entries whose
resolution succeeded with a value, in order. -/
def rootCacheFetcherSpec (leaves : List (String × Except Unit (Option CliBinary))) :
    List CliBinary :=
  leaves.filterMap (fun p => match p.2 with
    | Except.ok (some b) => some b
    | _ => none)

/- Registry shape of the provider: the keys of the per-binary cache map,
the number of leaf subscriptions made, and the number of invalidate calls
on the root cache.  The model is the post-construction provider, where the
root cache exists, so the optional chaining on it always invalidates. -/

def knownFlowCommands : List String := ["flow"]

structure CliVersionsProvider where
  caches : List String
  subscriptions : Nat
  rootInvalidations : Nat
deriving DecidableEq

/-- add: return unchanged when an entry exists, otherwise create the
entry, subscribe it to invalidate the root, and invalidate the root. -/
def CliVersionsProvider.add (command : String) (s : CliVersionsProvider) :
    CliVersionsProvider :=
  if command ∈ s.caches then s
  else
    { caches := s.caches ++ [command],
      subscriptions := s.subscriptions + 1,
      rootInvalidations := s.rootInvalidations + 1 }

/-- remove: return unchanged when no entry exists or the name is a known
command, otherwise delete the entry and invalidate the root. -/
def CliVersionsProvider.remove (command : String) (s : CliVersionsProvider) :
    CliVersionsProvider :=
  if command ∈ s.caches ∧ command ∉ knownFlowCommands then
    { caches := s.caches.erase command,
      subscriptions := s.subscriptions,
      rootInvalidations := s.rootInvalidations + 1 }
  else s

/- ===================== language server supervisor =====================
Model of LanguageServerAPI in language-server.ts.

watchEmulator installs a periodic tick.  The interval argument in the
source is 1000 * seconds with seconds = 3. -/

def watchEmulatorSeconds : Nat := 3

def watchEmulatorIntervalMs : Nat := 1000 * watchEmulatorSeconds

/-- One tick of the watchEmulator callback, after the probe: given the
probed reachability and the stored reachability, return the new stored
reachability and the list of restart flags invoked.  The surrounding lock
acquire and release are balanced on both branches and the restart happens
after the release, so they are elided here. -/
def watchEmulatorTick (emulatorFound : Bool) (connected : Bool) : Bool × List Bool :=
  if connected = emulatorFound then (connected, [])
  else (emulatorFound, [emulatorFound])

/- startClient: the control flow between the lock acquire and the release.
State tracked: the lock, the client handle, the stored reachability and
the initialization marker.  Environment: the probe outcome (the probe
itself never throws, it converts errors to false), whether the unguarded
awaited steps between acquire and release resolve (configPathOk stands for
Config.getConfigPath and the other unguarded synchronous calls), and
whether client.start resolves (its rejection is caught and only reports an
error message).  The result carries the final state, the user messages
shown, and whether the returned promise resolved or rejected. -/

structure SupervisorState where
  lockHeld : Bool
  hasClient : Bool
  emulatorConnected : Bool
  initializedClient : Bool
deriving DecidableEq

structure StartEnv where
  emulatorFound : Bool
  configPathOk : Bool
  startSucceeds : Bool
deriving DecidableEq

def startClient (enableFlowArg : Option Bool) (env : StartEnv) (s : SupervisorState) :
    SupervisorState × List String × Except Unit Unit :=
  let s1 : SupervisorState := { s with lockHeld := true }
  let enableFlow := enableFlowArg.getD env.emulatorFound
  let s2 : SupervisorState :=
    match enableFlowArg with
    | none => { s1 with emulatorConnected := env.emulatorFound }
    | some _ => s1
  let s3 : SupervisorState := { s2 with initializedClient := false }
  if env.configPathOk then
    let s4 : SupervisorState := { s3 with hasClient := true }
    let startMsgs : List String := if env.startSucceeds then [] else ["server-failed-to-start"]
    let s5 : SupervisorState := { s4 with initializedClient := true }
    let endMsgs : List String := if enableFlow then ["emulator-connected"] else ["emulator-warning"]
    ({ s5 with lockHeld := false }, startMsgs ++ endMsgs, Except.ok ())
  else
    (s3, [], Except.error ())

/- ===================== reactive value cache =====================
Modelled from the spec: the StateCache implementation, imported by
cli-versions-provider.ts from src/utils/state-cache.ts, is not among the
source files.  Following section 4.1 of the spec, an entry carries a
validity flag, an in-flight fetch marker (here a count of outstanding
fetches, so that the single-fetch property is expressible), and a pending
recomputation flag recording that one more fetch is owed once the current
one settles.  getValue begins a fetch only when the entry is stale and
none is outstanding; concurrent callers join the outstanding fetch.
invalidate marks the entry stale and, when a fetch is outstanding, records
the owed recomputation, coalescing repeated calls.  settle resolves the
outstanding fetch and schedules exactly one follow-up fetch when one is
owed; its second component is the number of follow-ups scheduled. -/

structure StateCacheSt where
  fresh : Bool
  outstanding : Nat
  pendingRefetch : Bool
deriving DecidableEq

def cacheGetValue (s : StateCacheSt) : StateCacheSt :=
  if s.fresh then s
  else if s.outstanding = 0 then { s with outstanding := 1 }
  else s

def cacheInvalidate (s : StateCacheSt) : StateCacheSt :=
  if s.outstanding = 0 then { s with fresh := false }
  else { s with fresh := false, pendingRefetch := true }

def cacheSettle (s : StateCacheSt) : StateCacheSt × Nat :=
  if s.pendingRefetch then
    ({ fresh := false, outstanding := 1, pendingRefetch := false }, 1)
  else
    ({ fresh := true, outstanding := s.outstanding - 1, pendingRefetch := false }, 0)

inductive CacheOp where
  | getValue
  | invalidate
  | settle
deriving DecidableEq

def cacheStep : CacheOp → StateCacheSt → StateCacheSt
  | CacheOp.getValue, s => cacheGetValue s
  | CacheOp.invalidate, s => cacheInvalidate s
  | CacheOp.settle, s => (cacheSettle s).1

def cacheRun (ops : List CacheOp) (s : StateCacheSt) : StateCacheSt :=
  ops.foldl (fun s op => cacheStep op s) s

def cacheInit : StateCacheSt :=
  { fresh := false, outstanding := 0, pendingRefetch := false }

/- ===================== helper lemmas ===================== -/

theorem except_bind_ok {α β : Type} (a : α) (f : α → Except Unit β) :
    (Except.ok a >>= f) = f a := rfl

theorem except_bind_error {α β : Type} (f : α → Except Unit β) :
    ((Except.error () : Except Unit α) >>= f) = Except.error () := rfl

theorem nodup_not_mem_erase {α : Type} [DecidableEq α] {a : α} {l : List α}
    (h : l.Nodup) : a ∉ l.erase a := by
  intro hmem
  have h1 : List.count a l ≤ 1 := List.nodup_iff_count_le_one.mp h a
  have h2 : List.count a (l.erase a) = List.count a l - 1 := List.count_erase_self a l
  have h3 : 0 < List.count a (l.erase a) := List.count_pos_iff.mpr hmem
  omega

/- ===================== claims ===================== -/

/-- Claim C1, counterexample: startClient acquires the shared client lock
and, when the unguarded awaited step resolving the configuration path
rejects, the returned promise rejects with the lock still held; there is
no try/finally around the body, so the claim that the lock is released on
every exit path, exceptions included, is false on the code. -/
theorem startClient_exception_lock_held :
    (startClient none ⟨true, false, true⟩ ⟨false, false, false, false⟩).1.lockHeld = true
  ∧ (startClient none ⟨true, false, true⟩ ⟨false, false, false, false⟩).2.2 = Except.error () :=
  ⟨rfl, rfl⟩

/-- Claim C1, amended: on every exit on which no uncaught exception occurs
the lock is released and the promise resolves; this covers the success
path and the launch failure path, since the rejection of client.start is
caught and only reports a message.  An exception from an unguarded step
inside the operation leaves the lock held. -/
theorem startClient_lock_released (enableFlowArg : Option Bool) (env : StartEnv)
    (s : SupervisorState) (h : env.configPathOk = true) :
    (startClient enableFlowArg env s).1.lockHeld = false
  ∧ (startClient enableFlowArg env s).2.2 = Except.ok () := by
  cases enableFlowArg <;> simp [startClient, h]

/-- Claim C1, witness: a concrete launch-failure run releases the lock. -/
theorem startClient_lock_released_witness :
    (startClient none ⟨false, true, false⟩ ⟨false, false, false, false⟩).1.lockHeld = false
  ∧ (startClient none ⟨false, true, false⟩ ⟨false, false, false, false⟩).2.2 = Except.ok () :=
  startClient_lock_released none ⟨false, true, false⟩ ⟨false, false, false, false⟩ rfl

/-- Claim C3: a connectivity tick whose probed reachability differs from
the stored one records the new value and invokes exactly one restart
carrying the probed reachability as the launch flag; a tick whose probe
matches the stored value invokes no restart; in particular the transition
from false to true restarts once with flag true, and the following
identical true reading restarts zero times. -/
theorem watchEmulator_transitions (found connected : Bool) :
    (connected ≠ found → watchEmulatorTick found connected = (found, [found]))
  ∧ (connected = found → watchEmulatorTick found connected = (connected, []))
  ∧ watchEmulatorTick true false = (true, [true])
  ∧ watchEmulatorTick true (watchEmulatorTick true false).1 = (true, []) := by
  refine ⟨fun h => ?_, fun h => ?_, rfl, rfl⟩
  · simp [watchEmulatorTick, h]
  · simp [watchEmulatorTick, h]

/-- Claim C3, witness: the transition tick and the repeated reading tick
at concrete inputs. -/
theorem watchEmulator_transitions_witness :
    watchEmulatorTick true false = (true, [true])
  ∧ watchEmulatorTick true true = (true, []) :=
  ⟨(watchEmulator_transitions true false).1 (by decide),
   (watchEmulator_transitions true true).2.1 rfl⟩

/-- Claim C4, counterexample: the monitor interval is not 1000 ms. -/
theorem watchEmulator_interval_not_one_second : watchEmulatorIntervalMs ≠ 1000 := by
  decide

/-- Claim C4, amended: the monitor tick runs on a fixed interval of 3
seconds (the source passes 1000 * seconds with seconds = 3). -/
theorem watchEmulator_interval_three_seconds :
    watchEmulatorIntervalMs = 3000 ∧ watchEmulatorSeconds = 3 := ⟨rfl, rfl⟩

theorem cacheStep_outstanding_le (op : CacheOp) (s : StateCacheSt)
    (h : s.outstanding ≤ 1) : (cacheStep op s).outstanding ≤ 1 := by
  cases op with
  | getValue =>
    simp only [cacheStep, cacheGetValue]
    split
    · exact h
    · split <;> simp_all
  | invalidate =>
    simp only [cacheStep, cacheInvalidate]
    split <;> simpa using h
  | settle =>
    simp only [cacheStep, cacheSettle]
    split
    · simp
    · simp
      omega

theorem cacheRun_outstanding_le (ops : List CacheOp) :
    ∀ s : StateCacheSt, s.outstanding ≤ 1 → (cacheRun ops s).outstanding ≤ 1 := by
  induction ops with
  | nil => intro s h; exact h
  | cons op rest ih =>
    intro s h
    exact ih (cacheStep op s) (cacheStep_outstanding_le op s h)

theorem cacheInvalidate_of_outstanding_one (s : StateCacheSt) (h : s.outstanding = 1) :
    cacheInvalidate s = ⟨false, 1, true⟩ := by
  simp [cacheInvalidate, h]

theorem cacheInvalidate_iterate (n : Nat) (s : StateCacheSt) (hn : 1 ≤ n)
    (h : s.outstanding = 1) : cacheInvalidate^[n] s = ⟨false, 1, true⟩ := by
  obtain ⟨m, rfl⟩ : ∃ m, n = m + 1 := ⟨n - 1, by omega⟩
  rw [Function.iterate_succ_apply, cacheInvalidate_of_outstanding_one s h]
  exact Function.iterate_fixed (cacheInvalidate_of_outstanding_one ⟨false, 1, true⟩ rfl) m

/-- Claim C2: in every run of the cache from its initial state, at most
one fetch is outstanding after any sequence of operations (so at any
time, since every reachable state is the final state of some prefix); and
for every n at least 1, invalidating n times while a fetch is outstanding
and then settling that fetch schedules exactly one follow-up
recomputation, never n. -/
theorem stateCache_single_flight_coalesced (ops : List CacheOp) (n : Nat) (s : StateCacheSt) :
    (cacheRun ops cacheInit).outstanding ≤ 1
  ∧ (1 ≤ n → s.outstanding = 1 → (cacheSettle (cacheInvalidate^[n] s)).2 = 1) := by
  constructor
  · exact cacheRun_outstanding_le ops cacheInit (by decide)
  · intro hn h
    rw [cacheInvalidate_iterate n s hn h]
    rfl

/-- Claim C2, witness: a concrete run and a triple invalidation during a
fetch that settles with exactly one follow-up. -/
theorem stateCache_single_flight_coalesced_witness :
    (cacheRun [CacheOp.getValue, CacheOp.invalidate, CacheOp.settle] cacheInit).outstanding ≤ 1
  ∧ (cacheSettle (cacheInvalidate^[3] ⟨false, 1, false⟩)).2 = 1 :=
  ⟨(stateCache_single_flight_coalesced
      [CacheOp.getValue, CacheOp.invalidate, CacheOp.settle] 3 ⟨false, 1, false⟩).1,
   (stateCache_single_flight_coalesced [] 3 ⟨false, 1, false⟩).2 (by decide) rfl⟩

/-- Claim C5: parseFlowCliVersion maps the reference input to 1.2.3, and
every input on which the legacy version pattern has no match yields no
value. -/
theorem parseFlowCliVersion_spec :
    parseFlowCliVersion "Version: v1.2.3\n" = some "1.2.3"
  ∧ ∀ s : String, legacyVersionMatch s = none → parseFlowCliVersion s = none := by
  refine ⟨rfl, fun s h => ?_⟩
  simp [parseFlowCliVersion, h]

/-- Claim C5, witness: the reference input, and a concrete input without a
match. -/
theorem parseFlowCliVersion_spec_witness :
    parseFlowCliVersion "Version: v1.2.3\n" = some "1.2.3"
  ∧ parseFlowCliVersion "no version here" = none :=
  ⟨parseFlowCliVersion_spec.1, parseFlowCliVersion_spec.2 "no version here" rfl⟩

/-- Claim C10: the result of parseFlowCliVersion is always either none or
the formatted rendering of a parsed semantic version; when the pattern
matches, the result is the cleaned token, and none when cleaning fails; it
is never the raw matched token, as the concrete run with token v1.2.3
cleaning to 1.2.3 shows. -/
theorem parseFlowCliVersion_clean (s raw : String) :
    (parseFlowCliVersion s = none ∨ ∃ sv : SemVer, parseFlowCliVersion s = some (formatSemVer sv))
  ∧ (legacyVersionMatch s = some raw → parseFlowCliVersion s = semverClean raw)
  ∧ (legacyVersionMatch s = some raw → semverClean raw = none → parseFlowCliVersion s = none)
  ∧ legacyVersionMatch "Version: vv1.2.3\n" = some "v1.2.3"
  ∧ parseFlowCliVersion "Version: vv1.2.3\n" = some "1.2.3" := by
  refine ⟨?_, fun h => ?_, fun h h2 => ?_, rfl, rfl⟩
  · cases h : legacyVersionMatch s with
    | none => exact Or.inl (by simp [parseFlowCliVersion, h])
    | some raw0 =>
      cases h2 : semverParse (cleanStrip raw0) with
      | none => exact Or.inl (by simp [parseFlowCliVersion, h, semverClean, h2])
      | some sv =>
        exact Or.inr ⟨sv, by simp [parseFlowCliVersion, h, semverClean, h2]⟩
  · simp [parseFlowCliVersion, h]
  · simp [parseFlowCliVersion, h, h2]

/-- Claim C10, witness: a matched token that is not a valid semantic
version cleans to none, so the whole extraction yields no value. -/
theorem parseFlowCliVersion_clean_witness :
    parseFlowCliVersion "Version: vgarbage\n" = none :=
  (parseFlowCliVersion_clean "Version: vgarbage\n" "garbage").2.2.1 rfl rfl

/-- Claim C6: resolution runs the structured version query first and falls
back to the plain-text query when that invocation throws or its output
fails to parse as JSON; the fallback extracts the token from stdout and,
only when absent there, from stderr; a throwing plain invocation, a
missing token, or a token that is not a valid semantic version all yield
none rather than an error. -/
theorem fetch_resolution_spec (env : FetchEnv) (bin : String) :
    (env.exec (CHECK_FLOW_CLI_CMD bin) = Except.error () →
       fetchBinaryInformation env bin = fetchBinaryInformationOld env bin)
  ∧ (∀ out, env.exec (CHECK_FLOW_CLI_CMD bin) = Except.ok out →
       env.jsonVersionField out.stdout = Except.error () →
       fetchBinaryInformation env bin = fetchBinaryInformationOld env bin)
  ∧ (∀ out, env.exec (CHECK_FLOW_CLI_CMD_NO_JSON bin) = Except.ok out →
       fetchBinaryInformationOld env bin =
         (match parseFlowCliVersion out.stdout with
          | some v => cliBinaryFromVersion bin v
          | none =>
            match parseFlowCliVersion out.stderr with
            | some v => cliBinaryFromVersion bin v
            | none => none))
  ∧ (env.exec (CHECK_FLOW_CLI_CMD_NO_JSON bin) = Except.error () →
       fetchBinaryInformationOld env bin = none)
  ∧ (∀ v, semverParse v = none → cliBinaryFromVersion bin v = none) := by
  refine ⟨fun h => ?_, fun out h h2 => ?_, fun out h => ?_, fun h => ?_, fun v h => ?_⟩
  · simp [fetchBinaryInformation, fetchBinaryInformationBody, h, except_bind_error]
  · simp [fetchBinaryInformation, fetchBinaryInformationBody, h, h2,
      except_bind_ok, except_bind_error]
  · simp only [fetchBinaryInformationOld, fetchBinaryInformationOldBody, h, except_bind_ok]
    cases parseFlowCliVersion out.stdout <;> cases parseFlowCliVersion out.stderr <;> rfl
  · simp [fetchBinaryInformationOld, fetchBinaryInformationOldBody, h, except_bind_error]
  · simp [cliBinaryFromVersion, h]

def envC6 : FetchEnv :=
  { exec := fun c =>
      if c = CHECK_FLOW_CLI_CMD "flow" then Except.error ()
      else Except.ok { stdout := "Version: v1.2.3\n", stderr := "" },
    jsonVersionField := fun _ => Except.error () }

/-- Claim C6, witness: with a structured query that throws, resolution
equals the fallback, and an invalid token converts to none. -/
theorem fetch_resolution_spec_witness :
    fetchBinaryInformation envC6 "flow" = fetchBinaryInformationOld envC6 "flow"
  ∧ cliBinaryFromVersion "flow" "garbage" = none :=
  ⟨(fetch_resolution_spec envC6 "flow").1 rfl,
   (fetch_resolution_spec envC6 "flow").2.2.2.2 "garbage" rfl⟩

/-- Claim C7: for every set of leaf outcomes, the root cache fetcher
resolves, never rejects, and its value is exactly the list of binaries
whose leaf resolution succeeded with a value; failed or empty leaves are
excluded and never fail the aggregate. -/
theorem getVersions_aggregate (leaves : List (String × Except Unit (Option CliBinary))) :
    rootCacheFetcher leaves = Except.ok (rootCacheFetcherSpec leaves) := by
  induction leaves with
  | nil => rfl
  | cons p rest ih =>
    cases hc : rootCacheCollect rest with
    | error e =>
      exfalso
      cases e
      have := ih
      simp [rootCacheFetcher, hc, except_bind_error] at this
    | ok vs =>
      have hvs : vs.filterMap id = rootCacheFetcherSpec rest := by
        have := ih
        simpa [rootCacheFetcher, hc, except_bind_ok] using this
      cases p with
      | mk name r =>
        cases r with
        | error e =>
          simp [rootCacheFetcher, rootCacheCollect, rootCacheFetcherSpec, hc,
            except_bind_ok, hvs]
        | ok v =>
          cases v with
          | none =>
            simp [rootCacheFetcher, rootCacheCollect, rootCacheFetcherSpec, hc,
              except_bind_ok, hvs]
          | some b =>
            simp [rootCacheFetcher, rootCacheCollect, rootCacheFetcherSpec, hc,
              except_bind_ok, hvs]

/-- Claim C8, counterexample: removing a name that is not a baseline name
but has no cache entry is a plain no-op: the code returns early and in
particular does not invalidate the root aggregate, against the claim that
every non-baseline removal invalidates it. -/
theorem remove_missing_no_invalidate :
    "ghost" ∉ knownFlowCommands
  ∧ CliVersionsProvider.remove "ghost" ⟨["flow"], 1, 0⟩ = ⟨["flow"], 1, 0⟩
  ∧ (CliVersionsProvider.remove "ghost" ⟨["flow"], 1, 0⟩).rootInvalidations = 0 := by
  decide

/-- Claim C8, amended: remove is a no-op when the name is a baseline name
or has no cache entry; when a non-baseline entry exists, remove discards
it and invalidates the root aggregate, after which the name no longer
appears among the cache keys driving aggregation; remove never raises. -/
theorem remove_spec (command : String) (s : CliVersionsProvider) (hnd : s.caches.Nodup) :
    (command ∈ knownFlowCommands ∨ command ∉ s.caches →
       CliVersionsProvider.remove command s = s)
  ∧ (command ∉ knownFlowCommands → command ∈ s.caches →
       (CliVersionsProvider.remove command s).caches = s.caches.erase command
     ∧ (CliVersionsProvider.remove command s).rootInvalidations = s.rootInvalidations + 1
     ∧ command ∉ (CliVersionsProvider.remove command s).caches) := by
  constructor
  · intro h
    rcases h with h | h
    · simp [CliVersionsProvider.remove, h]
    · simp [CliVersionsProvider.remove, h]
  · intro h1 h2
    simp only [CliVersionsProvider.remove, h1, h2]
    refine ⟨by simp, by simp, ?_⟩
    simpa using nodup_not_mem_erase hnd

/-- Claim C8, witness: removing the baseline name is a no-op, and
removing a registered non-baseline name drops it from the cache keys. -/
theorem remove_spec_witness :
    CliVersionsProvider.remove "flow" ⟨["flow", "bar"], 2, 0⟩ = ⟨["flow", "bar"], 2, 0⟩
  ∧ "bar" ∉ (CliVersionsProvider.remove "bar" ⟨["flow", "bar"], 2, 0⟩).caches :=
  ⟨(remove_spec "flow" ⟨["flow", "bar"], 2, 0⟩ (by decide)).1 (Or.inl (by decide)),
   ((remove_spec "bar" ⟨["flow", "bar"], 2, 0⟩ (by decide)).2 (by decide) (by decide)).2.2⟩

/-- Claim C9: when an entry for the name exists, add returns the registry
unchanged, with no new entry, no new subscription and no root
invalidation; hence adding twice equals adding once. -/
theorem add_idempotent (command : String) (s : CliVersionsProvider) :
    (command ∈ s.caches → CliVersionsProvider.add command s = s)
  ∧ CliVersionsProvider.add command (CliVersionsProvider.add command s) =
      CliVersionsProvider.add command s := by
  constructor
  · intro h
    simp [CliVersionsProvider.add, h]
  · by_cases h : command ∈ s.caches
    · simp [CliVersionsProvider.add, h]
    · have h2 : command ∈ s.caches ++ [command] := by simp
      simp [CliVersionsProvider.add, h, h2]

/-- Claim C9, witness: adding the already-registered baseline name leaves
a concrete registry unchanged, and adding a fresh name twice equals
adding it once. -/
theorem add_idempotent_witness :
    CliVersionsProvider.add "flow" ⟨["flow"], 1, 1⟩ = ⟨["flow"], 1, 1⟩
  ∧ CliVersionsProvider.add "bar" (CliVersionsProvider.add "bar" ⟨["flow"], 1, 1⟩) =
      CliVersionsProvider.add "bar" ⟨["flow"], 1, 1⟩ :=
  ⟨(add_idempotent "flow" ⟨["flow"], 1, 1⟩).1 (by decide),
   (add_idempotent "bar" ⟨["flow"], 1, 1⟩).2⟩
